import Mathlib

/-!
Verification of the mandelbrot renderer (src/mandelbrot/src/main.rs) against its
specification. The Rust code is shallowly embedded: the f64 arithmetic of the
escape loop and of the coordinate mapper is modelled by exact rational
arithmetic (ℚ), and the transcendental color math (f64::powf) by the real
power function, so every theorem below is about the idealized exact-arithmetic
semantics of the source. The escape test `w.norm() <= 2.0` is embedded as
`normSq w ≤ 4`, which is equivalent to `|w| ≤ 2` in exact arithmetic since both
sides are nonnegative. The Rust cast `as u8` from f64 (truncate toward zero,
saturate into 0..=255) is embedded by `f64AsU8`.
-/

namespace Mandelbrot

/-- A complex value: a pair of coordinates, as num_complex's Complex of f64
(modelled exactly over ℚ). -/
structure Cplx where
  re : ℚ
  im : ℚ
deriving DecidableEq

/-- Complex multiplication, as num_complex implements it. -/
def cMul (a b : Cplx) : Cplx :=
  ⟨a.re * b.re - a.im * b.im, a.re * b.im + a.im * b.re⟩

/-- Complex addition. -/
def cAdd (a b : Cplx) : Cplx := ⟨a.re + b.re, a.im + b.im⟩

/-- Squared magnitude: `normSq w ≤ 4` embeds the source's `w.norm() <= 2.0`
(equivalent in exact arithmetic since both sides are nonnegative). -/
def normSq (a : Cplx) : ℚ := a.re * a.re + a.im * a.im

/-- One loop body of compute_color, main.rs line 18: `w = w * w + c`. -/
def step (c w : Cplx) : Cplx := cAdd (cMul w w) c

/-- The while loop of compute_color, main.rs lines 16-21, with `fuel` the
remaining iteration budget `max_iter - i`: while the budget is positive and
`normSq w ≤ 4`, apply `step` and count one more iteration. Returns the number
of iterations performed. -/
def escapeFrom (c : Cplx) (w : Cplx) : ℕ → ℕ
  | 0 => 0
  | fuel + 1 => if normSq w ≤ 4 then escapeFrom c (step c w) fuel + 1 else 0

/-- The escape evaluator of compute_color, main.rs lines 15-21: the iteration
count `i` at which the loop over seed `z` and parameter `c` stops. -/
def escapeCount (z c : Cplx) (maxIter : ℕ) : ℕ := escapeFrom c z maxIter

/-- The orbit of the quadratic recurrence: `orbit z c n` is z_n where
z_0 = z and z_{k+1} = z_k * z_k + c. -/
def orbit (z c : Cplx) : ℕ → Cplx
  | 0 => z
  | n + 1 => step c (orbit z c n)

/-- The ColorScheme enum of main.rs lines 53-57. -/
inductive ColorScheme
  | BlackAndWhite
  | Rainbow
  | Grayscale

/-- Rust's `as u8` cast from f64: truncate toward zero and saturate into
0..=255 (for nonnegative arguments this is the floor). -/
noncomputable def f64AsU8 (x : ℝ) : ℕ :=
  if x < 0 then 0 else min 255 (Int.toNat ⌊x⌋)

/-- The color section of compute_color, main.rs lines 22-49: given the loop's
final count `i` and `max_iter`, each scheme returns black when `i == max_iter`
and otherwise colors from the fraction `i / max_iter` (computed in f64,
modelled in ℝ), every channel scaled by 255 and cast with `as u8`. -/
noncomputable def applyColorScheme : ColorScheme → ℕ → ℕ → ℕ × ℕ × ℕ
  | ColorScheme.BlackAndWhite, i, maxIter =>
    if i = maxIter then (0, 0, 0)
    else
      (f64AsU8 ((i : ℝ) / (maxIter : ℝ) * 255),
       f64AsU8 ((i : ℝ) / (maxIter : ℝ) * 255),
       f64AsU8 ((i : ℝ) / (maxIter : ℝ) * 255))
  | ColorScheme.Rainbow, i, maxIter =>
    if i = maxIter then (0, 0, 0)
    else
      (f64AsU8 (((i : ℝ) / (maxIter : ℝ)) ^ (0.3 : ℝ) * 255),
       f64AsU8 (((i : ℝ) / (maxIter : ℝ)) ^ (0.5 : ℝ) * 255),
       f64AsU8 ((1 - ((i : ℝ) / (maxIter : ℝ)) ^ (0.7 : ℝ)) * 255))
  | ColorScheme.Grayscale, i, maxIter =>
    if i = maxIter then (0, 0, 0)
    else
      (f64AsU8 ((i : ℝ) / (maxIter : ℝ) * 255),
       f64AsU8 ((i : ℝ) / (maxIter : ℝ) * 255),
       f64AsU8 ((i : ℝ) / (maxIter : ℝ) * 255))

/-- compute_color, main.rs lines 15-51: run the escape loop on seed `z` and
parameter `c`, then map the final count through the selected scheme. -/
noncomputable def compute_color (z c : Cplx) (maxIter : ℕ)
    (scheme : ColorScheme) : ℕ × ℕ × ℕ :=
  applyColorScheme scheme (escapeCount z c maxIter) maxIter

/-- The FractalType enum of main.rs lines 10-13; Julia carries the fixed
parameter parsed from the CLI. -/
inductive FractalType
  | Mandelbrot
  | Julia (c : Cplx)
deriving DecidableEq

/-- The per-pixel dispatch of draw_fractal, main.rs lines 74-77: the pair
(seed, parameter) that the renderer passes to compute_color for a pixel whose
mapped complex point is `p`. For Mandelbrot it passes (0, p); for Julia(z) the
source passes `compute_color(z, c, ..)` with `c` the mapped point, i.e. the
pair (z, p): the fixed Julia parameter is the seed and the mapped point the
recurrence parameter. -/
def fractalSeedParam : FractalType → Cplx → Cplx × Cplx
  | FractalType.Mandelbrot, p => (⟨0, 0⟩, p)
  | FractalType.Julia z, p => (z, p)

/-- The cast `(width as f64 / zoom_level) as u32` of main.rs line 62: an
f64-to-u32 cast truncates toward zero and saturates below at 0, so for a
positive quotient it is the floor. -/
def captureDim (dim : ℕ) (zoom : ℚ) : ℕ := (⌊(dim : ℚ) / zoom⌋).toNat

/-- The coordinate mapping of draw_fractal, main.rs lines 60-73: with
`capture_w = captureDim width zoom`, `view_w = capture_w / w * scale` and
`view_x = pan_x - view_w / 2` (likewise for y), a pixel (x, y) maps to
`cx = (x - 0.5 * capture_w) * scale / w + view_x` and the analogous `cy`. -/
def pixelToC (x y width height : ℕ) (scale zoom panX panY : ℚ) : ℚ × ℚ :=
  (((x : ℚ) - 0.5 * (captureDim width zoom : ℚ)) * scale / (width : ℚ)
     + (panX - (captureDim width zoom : ℚ) / (width : ℚ) * scale / 2),
   ((y : ℚ) - 0.5 * (captureDim height zoom : ℚ)) * scale / (height : ℚ)
     + (panY - (captureDim height zoom : ℚ) / (height : ℚ) * scale / 2))

/-- The numeric value of an ascii decimal digit character, none otherwise. -/
def digitVal (c : Char) : Option ℕ :=
  if 48 ≤ c.toNat ∧ c.toNat ≤ 57 then some (c.toNat - 48) else none

/-- Accumulate the decimal value of a run of characters; none at the first
character that is not a digit. -/
def digitsVal : List Char → ℕ → Option ℕ
  | [], acc => some acc
  | c :: cs, acc =>
    match digitVal c with
    | some d => digitsVal cs (acc * 10 + d)
    | none => none

/-- Rust's u32::from_str as used at main.rs lines 92-93 and 113: an optional
leading plus sign, then at least one decimal digit and nothing else,
rejecting values that do not fit in 32 bits. -/
def u32FromStr (cs : List Char) : Option ℕ :=
  let t := match cs with
    | c :: rest => if c = '+' then rest else cs
    | [] => []
  match t with
  | [] => none
  | _ =>
    match digitsVal t 0 with
    | some n => if n < 2 ^ 32 then some n else none
    | none => none

/-- u32::from_str on a whole string. -/
def parseU32 (s : String) : Option ℕ := u32FromStr s.data

/-- Rust's split on a single separator character, as an iterator collected to
a vector: the (possibly empty) runs between occurrences of the separator. -/
def splitOnChar (sep : Char) : List Char → List (List Char)
  | [] => [[]]
  | c :: cs =>
    let r := splitOnChar sep cs
    if c = sep then [] :: r
    else
      match r with
      | g :: gs => (c :: g) :: gs
      | [] => [[c]]

/-- parse_resolution, main.rs lines 87-95: split on the letter x, demand
exactly two parts, parse each as u32. -/
def parse_resolution (s : String) : Option (ℕ × ℕ) :=
  match splitOnChar 'x' s.data with
  | [a, b] =>
    match u32FromStr a, u32FromStr b with
    | some w, some h => some (w, h)
    | _, _ => none
  | _ => none

/-- parse_complex_number, main.rs lines 97-104: split on the comma, demand
exactly two parts, parse each as f64 through the abstract float parser `pf`
(f64::from_str is standard-library float parsing, kept abstract). -/
def parse_complex_number (pf : String → Option ℚ) (s : String) : Option Cplx :=
  match splitOnChar ',' s.data with
  | [a, b] =>
    match pf (String.mk a), pf (String.mk b) with
    | some re, some im => some ⟨re, im⟩
    | _, _ => none
  | _ => none

/-- What an invocation of main comes to, main.rs lines 106-132: print usage
and return Ok (exit code 0), fail with a parse error (nonzero exit), or reach
draw_fractal and the PNG write with the parsed parameters. -/
inductive MainOutcome
  | usage
  | err (msg : String)
  | render (outFile : String) (outW outH capW capH maxIter : ℕ) (scale : ℚ)
      (ft : FractalType)

/-- The argument-parsing phase of main, main.rs lines 111-126, once the
argument count check has passed: each parser failure aborts with the source's
error message, otherwise the render parameters are assembled. `pf` stands for
f64::from_str. -/
def mainParse (pf : String → Option ℚ)
    (outFile res capRes mi sc ft cs : String) : MainOutcome :=
  match parse_resolution res with
  | none => MainOutcome.err "Invalid resolution"
  | some (w, h) =>
    match parse_resolution capRes with
    | none => MainOutcome.err "Invalid capture size"
    | some (cw, ch) =>
      match parseU32 mi with
      | none => MainOutcome.err "Invalid max_iter"
      | some maxIter =>
        match pf sc with
        | none => MainOutcome.err "Invalid scale"
        | some scale =>
          if ft = "mandelbrot" then
            MainOutcome.render outFile w h cw ch maxIter scale
              FractalType.Mandelbrot
          else if ft = "julia" then
            match parse_complex_number pf cs with
            | none => MainOutcome.err "Invalid complex number"
            | some c =>
              MainOutcome.render outFile w h cw ch maxIter scale
                (FractalType.Julia c)
          else MainOutcome.err "Invalid fractal type"

/-- main, main.rs lines 106-132: `args` is the full argument vector, program
name included. If `args.len() != 8` print usage and return Ok(()); otherwise
parse args[1..8]. -/
def mainRun (pf : String → Option ℚ) (args : List String) : MainOutcome :=
  if args.length = 8 then
    mainParse pf (args.getD 1 "") (args.getD 2 "") (args.getD 3 "")
      (args.getD 4 "") (args.getD 5 "") (args.getD 6 "") (args.getD 7 "")
  else MainOutcome.usage

/-- The process exit code each outcome produces: the usage path returns
Ok(()) from main (exit 0), a parse error propagates as Err (nonzero exit),
and a completed render returns Ok after writing the file. -/
def exitCode : MainOutcome → ℕ
  | MainOutcome.usage => 0
  | MainOutcome.err _ => 1
  | MainOutcome.render _ _ _ _ _ _ _ _ => 0

/-- Whether the outcome reaches File::create and writes the output file:
only a completed render does. -/
def writesOutputFile : MainOutcome → Bool
  | MainOutcome.render _ _ _ _ _ _ _ _ => true
  | _ => false

/-- Modelled from the spec: the Rainbow formula as §4.3 states it, channels
t^0.3, t^0.5 and 1 - t^0.7 with t = i / max_iter, each multiplied by 255 and
floor-truncated to an 8-bit unsigned integer. Compared against the source's
Rainbow branch in the rainbow-formula theorem. -/
noncomputable def rainbowSpecRGB (i maxIter : ℕ) : ℕ × ℕ × ℕ :=
  ((⌊((i : ℝ) / (maxIter : ℝ)) ^ (0.3 : ℝ) * 255⌋).toNat,
   (⌊((i : ℝ) / (maxIter : ℝ)) ^ (0.5 : ℝ) * 255⌋).toNat,
   (⌊(1 - ((i : ℝ) / (maxIter : ℝ)) ^ (0.7 : ℝ)) * 255⌋).toNat)

/-! ## Helper lemmas -/

/-- Advancing the orbit one step from the seed side. -/
lemma orbit_shift (z c : Cplx) (n : ℕ) :
    orbit z c (n + 1) = orbit (step c z) c n := by
  induction n with
  | zero => rfl
  | succ n ih => rw [orbit, ih, orbit]

/-- The loop performs at most `fuel` iterations. -/
lemma escapeFrom_le (c : Cplx) (fuel : ℕ) : ∀ w, escapeFrom c w fuel ≤ fuel := by
  induction fuel with
  | zero => intro w; simp [escapeFrom]
  | succ n ih =>
    intro w
    rw [escapeFrom]
    split
    · exact Nat.succ_le_succ (ih _)
    · exact Nat.zero_le _

/-- Full characterization of the loop: every iterate strictly before the stop
index is bounded, the stop index either exhausts the budget or has escaped,
and no earlier index satisfies the stopping condition. -/
lemma escapeFrom_spec (c : Cplx) (m : ℕ) : ∀ z,
    (∀ k, k < escapeFrom c z m → normSq (orbit z c k) ≤ 4) ∧
    (escapeFrom c z m = m ∨ 4 < normSq (orbit z c (escapeFrom c z m))) ∧
    (∀ n, n ≤ m → (n = m ∨ 4 < normSq (orbit z c n)) → escapeFrom c z m ≤ n) := by
  induction m with
  | zero =>
    intro z
    exact ⟨fun k hk => absurd hk (by simp [escapeFrom]), Or.inl rfl,
      fun n _ _ => Nat.zero_le _⟩
  | succ m ih =>
    intro z
    rw [escapeFrom]
    by_cases h4 : normSq z ≤ 4
    · rw [if_pos h4]
      obtain ⟨ihA, ihB, ihC⟩ := ih (step c z)
      refine ⟨?_, ?_, ?_⟩
      · intro k hk
        cases k with
        | zero => simpa [orbit] using h4
        | succ j =>
          rw [orbit_shift]
          exact ihA j (by omega)
      · rcases ihB with hB | hB
        · exact Or.inl (by omega)
        · right
          rw [orbit_shift]
          exact hB
      · intro n hn hdisj
        cases n with
        | zero =>
          rcases hdisj with h | h
          · omega
          · simp only [orbit] at h
            exact absurd h (not_lt.mpr h4)
        | succ j =>
          have hj : j ≤ m := by omega
          have : escapeFrom c (step c z) m ≤ j := by
            apply ihC j hj
            rcases hdisj with h | h
            · exact Or.inl (by omega)
            · rw [orbit_shift] at h
              exact Or.inr h
          omega
    · rw [if_neg h4]
      refine ⟨fun k hk => absurd hk (by omega), Or.inr ?_,
        fun n _ _ => Nat.zero_le _⟩
      simpa [orbit] using lt_of_not_le h4

/-- Raising the fuel can only raise the count, and once the loop stops below
its budget the count is unchanged by any larger budget. -/
lemma escapeFrom_mono_stable (c : Cplx) :
    ∀ m1 m2, m1 ≤ m2 → ∀ z, escapeFrom c z m1 ≤ escapeFrom c z m2 ∧
      (escapeFrom c z m1 < m1 → escapeFrom c z m2 = escapeFrom c z m1) := by
  intro m1
  induction m1 with
  | zero => intro m2 _ z; exact ⟨Nat.zero_le _, by omega⟩
  | succ m ih =>
    intro m2 hm z
    obtain ⟨n, rfl⟩ : ∃ k, m2 = k + 1 := ⟨m2 - 1, by omega⟩
    have hm2 : m ≤ n := by omega
    rw [escapeFrom, escapeFrom]
    by_cases h4 : normSq z ≤ 4
    · rw [if_pos h4, if_pos h4]
      obtain ⟨hle, hst⟩ := ih n hm2 (step c z)
      refine ⟨by omega, ?_⟩
      intro hlt
      have := hst (by omega)
      omega
    · rw [if_neg h4, if_neg h4]
      exact ⟨le_refl _, fun _ => rfl⟩

/-- A nonnegative f64 at most 255 casts to u8 as its floor. -/
lemma f64AsU8_eq_floor (x : ℝ) (h0 : 0 ≤ x) (h255 : x ≤ 255) :
    f64AsU8 x = (⌊x⌋).toNat := by
  rw [f64AsU8, if_neg (not_lt.mpr h0), min_eq_right]
  rw [Int.toNat_le]
  calc ⌊x⌋ ≤ ⌊(255 : ℝ)⌋ := Int.floor_le_floor h255
  _ = 255 := by norm_num

/-- At zoom 1 the captured dimension is the full dimension. -/
lemma captureDim_one (d : ℕ) : captureDim d 1 = d := by
  simp [captureDim]

/-- Once the argument-count check passes, main never takes the usage path. -/
lemma mainParse_ne_usage (pf : String → Option ℚ) (o r cr mi sc ft cs : String) :
    mainParse pf o r cr mi sc ft cs ≠ MainOutcome.usage := by
  rw [mainParse]
  repeat' split
  all_goals simp

/-! ## Claims -/

/-- C1: the claim says the renderer starts the Julia escape evaluation with
seed z0 equal to the pixel's mapped point and recurrence parameter equal to
the fixed Julia parameter. The source does the reverse: draw_fractal line 76
passes compute_color(z, c) with `z` the fixed Julia parameter and `c` the
mapped point, so the fixed parameter becomes the seed. At Julia parameter
(3, 0), mapped point (0, 0) and max_iter 2, the source's seeding escapes
immediately (count 0) while the claimed seeding iterates once (count 1). -/
theorem julia_passes_parameter_as_seed :
    fractalSeedParam (FractalType.Julia ⟨3, 0⟩) ⟨0, 0⟩ = (⟨3, 0⟩, ⟨0, 0⟩) ∧
    fractalSeedParam (FractalType.Julia ⟨3, 0⟩) ⟨0, 0⟩ ≠ (⟨0, 0⟩, ⟨3, 0⟩) ∧
    escapeCount ⟨3, 0⟩ ⟨0, 0⟩ 2 = 0 ∧
    escapeCount ⟨0, 0⟩ ⟨3, 0⟩ 2 = 1 := by
  refine ⟨rfl, ?_, ?_, ?_⟩
  · norm_num [fractalSeedParam, Prod.ext_iff, Cplx.mk.injEq]
  · norm_num [escapeCount, escapeFrom, step, cMul, cAdd, normSq]
  · norm_num [escapeCount, escapeFrom, step, cMul, cAdd, normSq]

/-- C2: the escape evaluation performs at most max_iter applications of
z * z + c, every iterate strictly before the returned count has squared
magnitude at most 4 (magnitude at most 2), the returned count either equals
max_iter or is an index whose iterate has escaped, and it is the least index
n ≤ max_iter with n = max_iter or |z_n| > 2. -/
theorem escapeCount_is_least_escape (z c : Cplx) (m : ℕ) :
    escapeCount z c m ≤ m ∧
    (∀ k, k < escapeCount z c m → normSq (orbit z c k) ≤ 4) ∧
    (escapeCount z c m = m ∨ 4 < normSq (orbit z c (escapeCount z c m))) ∧
    (∀ n, n ≤ m → (n = m ∨ 4 < normSq (orbit z c n)) → escapeCount z c m ≤ n) := by
  obtain ⟨hA, hB, hC⟩ := escapeFrom_spec c m z
  exact ⟨escapeFrom_le c m z, hA, hB, hC⟩

/-- C3 counterexample: the claim says that with zoom 1 and pan (0, 0) the
center pixel maps to the complex origin for every scale; at capture size
100 x 100 and scale 4 the source's mapping sends pixel (50, 50) to (-2, -2),
not (0, 0). -/
theorem center_pixel_not_origin :
    pixelToC 50 50 100 100 4 1 0 0 ≠ ((0 : ℚ), (0 : ℚ)) := by
  rw [pixelToC, captureDim_one]
  norm_num [Prod.ext_iff]

/-- C3 amended: with zoom 1, pan (0, 0) and positive even capture dimensions,
the renderer's mapping sends the center pixel (width / 2, height / 2) to
(-scale / 2, -scale / 2): the view origin pan - view / 2 is added on top of
the already-centered base transform, so the center lands at the view corner
offset, which is (0, 0) only for scale 0. -/
theorem center_pixel_maps_to_neg_half_scale (w h : ℕ) (scale : ℚ)
    (hw : w % 2 = 0) (hh : h % 2 = 0) (hw0 : 0 < w) (hh0 : 0 < h) :
    pixelToC (w / 2) (h / 2) w h scale 1 0 0 = (-scale / 2, -scale / 2) := by
  obtain ⟨a, ha⟩ := Nat.even_iff.mpr hw
  obtain ⟨b, hb⟩ := Nat.even_iff.mpr hh
  subst ha hb
  have haq : ((a : ℚ)) ≠ 0 := Nat.cast_ne_zero.mpr (by omega)
  have hbq : ((b : ℚ)) ≠ 0 := Nat.cast_ne_zero.mpr (by omega)
  have h2 : (a + a) / 2 = a := by omega
  have h3 : (b + b) / 2 = b := by omega
  rw [pixelToC, captureDim_one, captureDim_one, h2, h3, Prod.mk.injEq]
  push_cast
  constructor <;> field_simp <;> ring

/-- C3 amended, witness at capture 100 x 100 and scale 4: the center pixel
maps to (-2, -2). -/
theorem center_pixel_amended_witness :
    pixelToC (100 / 2) (100 / 2) 100 100 4 1 0 0 = (-(4 : ℚ) / 2, -(4 : ℚ) / 2) :=
  center_pixel_maps_to_neg_half_scale 100 100 4 (by norm_num) (by norm_num)
    (by norm_num) (by norm_num)

/-- C4: whenever the escape loop returns a count equal to max_iter, every
color scheme outputs pure black (0, 0, 0). -/
theorem in_set_pixels_black (z c : Cplx) (m : ℕ) (scheme : ColorScheme)
    (h : escapeCount z c m = m) :
    compute_color z c m scheme = (0, 0, 0) := by
  rw [compute_color, h]
  cases scheme <;> simp [applyColorScheme]

/-- C4 witness: the origin never escapes, so at seed 0, parameter 0 and
max_iter 1 the count is 1 = max_iter and the Rainbow output is black. -/
theorem in_set_pixels_black_witness :
    compute_color ⟨0, 0⟩ ⟨0, 0⟩ 1 ColorScheme.Rainbow = (0, 0, 0) :=
  in_set_pixels_black ⟨0, 0⟩ ⟨0, 0⟩ 1 ColorScheme.Rainbow
    (by norm_num [escapeCount, escapeFrom, step, cMul, cAdd, normSq])

/-- C5: for an escaped count i < max_iter, the source's Rainbow branch equals
the spec formula: channels t^0.3, t^0.5 and 1 - t^0.7 with t = i / max_iter,
each multiplied by 255 and floor-truncated to an 8-bit unsigned integer (the
channels lie in [0, 255], so the saturating u8 cast is exactly the floor). -/
theorem rainbow_matches_spec_formula (i m : ℕ) (h : i < m) :
    applyColorScheme ColorScheme.Rainbow i m = rainbowSpecRGB i m := by
  have hm : (0 : ℝ) < (m : ℝ) := by exact_mod_cast Nat.pos_of_ne_zero (by omega)
  have hne : ¬ i = m := by omega
  set t : ℝ := (i : ℝ) / (m : ℝ) with ht
  have ht0 : 0 ≤ t := div_nonneg (Nat.cast_nonneg i) (Nat.cast_nonneg m)
  have ht1 : t < 1 := (div_lt_one hm).mpr (by exact_mod_cast h)
  have key : ∀ e : ℝ, 0 < e → f64AsU8 (t ^ e * 255) = (⌊t ^ e * 255⌋).toNat := by
    intro e he
    have h1 : t ^ e ≤ 1 := Real.rpow_le_one ht0 ht1.le he.le
    have h0 : 0 ≤ t ^ e := Real.rpow_nonneg ht0 e
    exact f64AsU8_eq_floor _ (by positivity) (by nlinarith)
  have keyb : f64AsU8 ((1 - t ^ (0.7 : ℝ)) * 255)
      = (⌊(1 - t ^ (0.7 : ℝ)) * 255⌋).toNat := by
    have h1 : t ^ (0.7 : ℝ) ≤ 1 := Real.rpow_le_one ht0 ht1.le (by norm_num)
    have h0 : 0 ≤ t ^ (0.7 : ℝ) := Real.rpow_nonneg ht0 _
    exact f64AsU8_eq_floor _ (by nlinarith) (by nlinarith)
  rw [applyColorScheme, if_neg hne, rainbowSpecRGB,
    key (0.3 : ℝ) (by norm_num), key (0.5 : ℝ) (by norm_num), keyb]

/-- C5 witness at i = 1, max_iter = 2. -/
theorem rainbow_matches_spec_formula_witness :
    applyColorScheme ColorScheme.Rainbow 1 2 = rainbowSpecRGB 1 2 :=
  rainbow_matches_spec_formula 1 2 (by norm_num)

/-- C6: Grayscale and BlackAndWhite are two names for the same behavior:
they return the same triple for every seed, parameter and bound, and for
every iteration count. -/
theorem grayscale_eq_blackandwhite (z c : Cplx) (m i : ℕ) :
    compute_color z c m ColorScheme.Grayscale
      = compute_color z c m ColorScheme.BlackAndWhite ∧
    applyColorScheme ColorScheme.Grayscale i m
      = applyColorScheme ColorScheme.BlackAndWhite i m :=
  ⟨rfl, rfl⟩

/-- C7: for fixed seed and parameter the escape count is monotonically
non-decreasing in max_iter, and a count that escaped below the smaller bound
is unchanged under the larger bound. -/
theorem escapeCount_mono_in_max_iter (z c : Cplx) (m1 m2 : ℕ) (h : m1 ≤ m2) :
    escapeCount z c m1 ≤ escapeCount z c m2 ∧
    (escapeCount z c m1 < m1 → escapeCount z c m2 = escapeCount z c m1) :=
  escapeFrom_mono_stable c m1 m2 h z

/-- C7 witness: seed (3, 0) escapes at step 0 under bound 1, and the count is
unchanged under bound 2. -/
theorem escapeCount_mono_in_max_iter_witness :
    escapeCount ⟨3, 0⟩ ⟨0, 0⟩ 1 ≤ escapeCount ⟨3, 0⟩ ⟨0, 0⟩ 2 ∧
    (escapeCount ⟨3, 0⟩ ⟨0, 0⟩ 1 < 1 →
      escapeCount ⟨3, 0⟩ ⟨0, 0⟩ 2 = escapeCount ⟨3, 0⟩ ⟨0, 0⟩ 1) :=
  escapeCount_mono_in_max_iter ⟨3, 0⟩ ⟨0, 0⟩ 1 2 (by norm_num)

/-- C8 counterexample: the claim says an invocation with exactly 6 positional
arguments after the program name is accepted as a Mandelbrot-only shape and
proceeds to parse and render. The source accepts only args.len() == 8: both
the 5-value shape the claim enumerates (6 args with the program name) and a
6-value shape (7 args with the program name) take the usage path instead of
proceeding. -/
theorem six_positional_args_print_usage :
    mainRun (fun _ => none) ["prog", "out.png", "1000x1000", "1000x1000",
      "100", "3.0"] = MainOutcome.usage ∧
    mainRun (fun _ => none) ["prog", "out.png", "1000x1000", "1000x1000",
      "100", "3.0", "mandelbrot"] = MainOutcome.usage := by
  constructor <;> (rw [mainRun]; norm_num)

/-- C8 amended: there is no Mandelbrot-only short CLI shape. An invocation
with 6 or 7 arguments including the program name (5 or 6 positional) prints
usage and exits 0; only an invocation with exactly 8 arguments including the
program name (7 positional, fractal_type and c included) passes the count
check and proceeds to parsing. -/
theorem only_eight_args_proceed (pf : String → Option ℚ) (args : List String) :
    ((args.length = 6 ∨ args.length = 7) → mainRun pf args = MainOutcome.usage) ∧
    (args.length = 8 → mainRun pf args ≠ MainOutcome.usage) := by
  constructor
  · intro h
    rw [mainRun, if_neg (by omega)]
  · intro h
    rw [mainRun, if_pos h]
    exact mainParse_ne_usage pf _ _ _ _ _ _ _

/-- C9: with an argument count matching neither CLI shape the spec describes
(neither 7 nor 8 including the program name), the program prints the usage
message, exits with code 0, and writes no output file. -/
theorem wrong_arg_count_usage_exit0 (pf : String → Option ℚ)
    (args : List String) (_h7 : args.length ≠ 7) (h8 : args.length ≠ 8) :
    mainRun pf args = MainOutcome.usage ∧
    exitCode (mainRun pf args) = 0 ∧
    writesOutputFile (mainRun pf args) = false := by
  have hu : mainRun pf args = MainOutcome.usage := by
    rw [mainRun, if_neg (by omega)]
  exact ⟨hu, by rw [hu]; rfl, by rw [hu]; rfl⟩

/-- C9 witness: 3 positional arguments (4 with the program name). -/
theorem wrong_arg_count_usage_exit0_witness :
    mainRun (fun _ => none) ["prog", "out.png", "100x100", "50"]
      = MainOutcome.usage ∧
    exitCode (mainRun (fun _ => none) ["prog", "out.png", "100x100", "50"]) = 0 ∧
    writesOutputFile (mainRun (fun _ => none)
      ["prog", "out.png", "100x100", "50"]) = false :=
  wrong_arg_count_usage_exit0 (fun _ => none)
    ["prog", "out.png", "100x100", "50"] (by norm_num) (by norm_num)

/-- C10: with max_iter = 0 the combined evaluation is total and safe for
every seed, parameter and scheme: the loop performs zero iterations, the
count 0 equals max_iter so the black branch is taken (the fraction
i / max_iter is never formed), and the CLI accepts the string 0 as max_iter
without validation. -/
theorem max_iter_zero_total_black (z c : Cplx) (scheme : ColorScheme) :
    escapeCount z c 0 = 0 ∧
    compute_color z c 0 scheme = (0, 0, 0) ∧
    parseU32 "0" = some 0 := by
  refine ⟨rfl, ?_, by decide⟩
  rw [compute_color]
  cases scheme <;> simp [applyColorScheme, escapeCount, escapeFrom]

end Mandelbrot
